import Mathlib

/-!
Verification of the ingestion-dedup-queue-worker pipeline of the
AI-article-writer service. Definitions are a shallow embedding of the
final revision of the pipeline (src/index.js, with the RSS dedup loop
of the syndication revision): the queue worker, post type resolution,
media variant selection, tag slug derivation, tweet ingestion dedup,
RSS duplicate detection and post id generation.
-/

namespace NewsPipeline

/-- One encoded variant of an upstream video (an entry of
`video_info.variants`): a content type, an optional bitrate and a URL. -/
structure Variant where
  content_type : String
  bitrate : Option Nat
  url : String
deriving DecidableEq

/-- The `video_info` object of a media entity. -/
structure VideoInfo where
  variants : List Variant
deriving DecidableEq

/-- One entry of a tweet's media array (`extendedEntities.media`). -/
structure MediaEntity where
  type : String
  media_url_https : String
  video_info : Option VideoInfo
deriving DecidableEq

/-- A persisted queue document (the Queue schema fields the worker reads). -/
structure QueueItem where
  id : String
  text : String
  url : String
  postType : String
  media : List MediaEntity
  queuedAt : Nat
deriving DecidableEq

/-- The parsed JSON payload a successful generative call returns. -/
structure GeminiData where
  title : String
  summary : String
  content : String
  tags_en : List String
deriving DecidableEq

/-- A persisted post document (the Post schema fields the worker writes
that the claims are about). -/
structure Post where
  tweetId : String
  title : String
  summary : String
  text : String
  imageUrl : Option String
  videoUrl : Option String
  type : String
deriving DecidableEq

/-- Bitrate of a variant with a missing bitrate treated as 0, as in the
comparator `(b.bitrate || 0) - (a.bitrate || 0)` of src/index.js:499. -/
def bitrateD (v : Variant) : Nat := v.bitrate.getD 0

/-- Stable insertion step for the descending-bitrate sort: `v` comes from
earlier in the original array, so on a bitrate tie it is placed first,
matching the stable JS `Array.prototype.sort`. -/
def insertDesc (v : Variant) : List Variant → List Variant
  | [] => [v]
  | w :: ws => if bitrateD w ≤ bitrateD v then v :: w :: ws else w :: insertDesc v ws

/-- The stable descending-bitrate sort of src/index.js:499. -/
def sortByBitrateDesc : List Variant → List Variant
  | [] => []
  | v :: vs => insertDesc v (sortByBitrateDesc vs)

/-- Best video variant: filter to mp4, sort by bitrate descending, take the
first (src/index.js:497-499). -/
def selectBestVideo (variants : List Variant) : Option Variant :=
  (sortByBitrateDesc (variants.filter (fun v => v.content_type == "video/mp4"))).head?

/-- Video extraction of src/index.js:493-502: only the first media entry is
inspected; it must have type "video" and carry a `video_info`. -/
def extractVideo : List MediaEntity → Option String
  | [] => none
  | m :: _ =>
    if m.type = "video" then
      match m.video_info with
      | some vi => (selectBestVideo vi.variants).map (fun v => v.url)
      | none => none
    else none

/-- Modelled from the spec's words for comparison with `selectBestVideo`:
the first variant attaining the maximal bitrate ("highest bitrate,
ties broken by original order"). -/
def firstMaxByBitrate : List Variant → Option Variant
  | [] => none
  | v :: vs =>
    match firstMaxByBitrate vs with
    | none => some v
    | some w => if bitrateD w > bitrateD v then some w else some v

/-- Modelled from the spec's words: the first mp4 variant with the highest
bitrate, to be compared with the code's `selectBestVideo`. -/
def specBestMp4 (variants : List Variant) : Option Variant :=
  firstMaxByBitrate (variants.filter (fun v => v.content_type == "video/mp4"))

/-- Post type resolution of src/index.js:504-515: with a video the default
"normal_post" request is upgraded to "normal_video" and any other request
is kept; without a video the type is forced to "normal_post". -/
def finalPostType (postType : String) (tweetVideo : Option String) : String :=
  match tweetVideo with
  | some _ => if postType = "normal_post" then "normal_video" else postType
  | none => "normal_post"

/-- Main image selection of src/index.js:476-489: the first photo-type media
entry's `media_url_https`, if any. -/
def mainImageUrl (media : List MediaEntity) : Option String :=
  ((media.filter (fun m => m.type = "photo")).head?).map (fun m => m.media_url_https)

/-- Slug derivation of src/index.js:132:
`name.toLowerCase().replace(/ /g, '-').replace(/[^\w-]+/g, '')` —
ASCII lowercase, each space to a hyphen, then every character outside
`[A-Za-z0-9_-]` removed. -/
def slug (name : String) : String :=
  String.mk (((name.data.map Char.toLower).map (fun c => if c = ' ' then '-' else c)).filter
    (fun c => c.isAlphanum || c = '_' || c = '-'))

/-- A persisted tag document. -/
structure Tag where
  name : String
  slug : String
deriving DecidableEq

/-- One step of `getOrCreateTags` (src/index.js:128-140): look the slug up,
create the tag only when absent; returns the updated registry and the tag. -/
def getOrCreateTag (tags : List Tag) (name : String) : List Tag × Tag :=
  match tags.find? (fun t => t.slug == slug name) with
  | some t => (tags, t)
  | none =>
    let t : Tag := { name := name, slug := slug name }
    (tags ++ [t], t)

/-- Post id generation of src/index.js:120:
`Math.floor(100000000 + Math.random() * 900000000)`, with the random draw
modelled as a rational in [0, 1). -/
def generatePostId (r : ℚ) : ℤ := ⌊(100000000 : ℚ) + r * 900000000⌋

/-! Lemmas about the descending-bitrate sort. -/

theorem head_insertDesc (v : Variant) (l : List Variant) :
    (insertDesc v l).head? = some (match l.head? with
      | none => v
      | some w => if bitrateD w ≤ bitrateD v then v else w) := by
  cases l with
  | nil => rfl
  | cons w ws =>
    by_cases h : bitrateD w ≤ bitrateD v
    · simp [insertDesc, h]
    · simp [insertDesc, h]

theorem head_sortByBitrateDesc (l : List Variant) :
    (sortByBitrateDesc l).head? = firstMaxByBitrate l := by
  induction l with
  | nil => rfl
  | cons v vs ih =>
    rw [sortByBitrateDesc, head_insertDesc, ih]
    cases h : firstMaxByBitrate vs with
    | none => simp [firstMaxByBitrate, h]
    | some w =>
      simp only [firstMaxByBitrate, h]
      by_cases hc : bitrateD w ≤ bitrateD v
      · rw [if_pos hc, if_neg (by omega)]
      · rw [if_neg hc, if_pos (by omega)]

theorem selectBestVideo_eq_spec (variants : List Variant) :
    selectBestVideo variants = specBestMp4 variants := by
  rw [selectBestVideo, specBestMp4, head_sortByBitrateDesc]

/-- Claim C1: post type resolution satisfies the spec's table: no video
always yields "normal_post" whatever was requested; a video upgrades the
default "normal_post" request to "normal_video"; a video with any other
requested type keeps the requested type unchanged. -/
theorem claim_C1_type_resolution (t url : String) :
    finalPostType t none = "normal_post" ∧
    finalPostType "normal_post" (some url) = "normal_video" ∧
    (t ≠ "normal_post" → finalPostType t (some url) = t) := by
  refine ⟨rfl, by simp [finalPostType], fun h => by simp [finalPostType, h]⟩

/-- Claim C7: video extraction inspects only the first media entry; among
that entry's variants it selects the mp4 variant with the highest bitrate
(missing bitrate treated as 0, ties broken by original order) — formally,
`selectBestVideo` coincides with the spec-modelled first-maximum
`specBestMp4`; on the spec's example variants the 1200kbps mp4 wins; and
without any mp4 variant no video is extracted. -/
theorem claim_C7_video_selection :
    (∀ (m : MediaEntity) (r1 r2 : List MediaEntity),
        extractVideo (m :: r1) = extractVideo (m :: r2)) ∧
    extractVideo [⟨"video", "", some ⟨[⟨"video/mp4", some 500, "mp4-500"⟩,
        ⟨"video/mp4", some 1200, "mp4-1200"⟩,
        ⟨"video/webm", some 2000, "webm-2000"⟩]⟩⟩] = some "mp4-1200" ∧
    (∀ variants : List Variant,
        (∀ v ∈ variants, v.content_type ≠ "video/mp4") →
        selectBestVideo variants = none) ∧
    (∀ variants : List Variant, selectBestVideo variants = specBestMp4 variants) := by
  refine ⟨fun m r1 r2 => rfl, by decide, fun variants h => ?_, selectBestVideo_eq_spec⟩
  have hf : variants.filter (fun v => v.content_type == "video/mp4") = [] := by
    rw [List.filter_eq_nil_iff]
    intro v hv
    simpa using h v hv
  rw [selectBestVideo, hf]
  rfl

/-- Claim C8 counterexample: the two names of the spec's slug example do not
share a slug — consecutive spaces become consecutive hyphens which the
non-word strip keeps, so slug "telugu   news" is "telugu---news" while
slug "Telugu News!" is "telugu-news". -/
theorem claim_C8_slug_cex : slug "Telugu News!" ≠ slug "telugu   news" := by decide

/-- Claim C8 (amended): slug derivation is the deterministic function
lowercase, each single space to a hyphen, non-word characters stripped —
so slug "Telugu News!" equals slug "telugu news" (single spaces) but
multiple consecutive spaces yield repeated hyphens; and re-running
get-or-create with the same name never creates a second Tag. -/
theorem claim_C8_slug_amended :
    (∀ (tags : List Tag) (name : String),
        (getOrCreateTag (getOrCreateTag tags name).1 name).1 = (getOrCreateTag tags name).1) ∧
    slug "Telugu News!" = "telugu-news" ∧ slug "telugu news" = "telugu-news" ∧
    slug "telugu   news" = "telugu---news" := by
  refine ⟨fun tags name => ?_, by decide, by decide, by decide⟩
  rcases h : tags.find? (fun t => t.slug == slug name) with _ | t
  · have h1 : (getOrCreateTag tags name).1 = tags ++ [{ name := name, slug := slug name }] := by
      rw [getOrCreateTag, h]
    rw [h1, getOrCreateTag, List.find?_append, h]
    simp
  · have h1 : (getOrCreateTag tags name).1 = tags := by
      rw [getOrCreateTag, h]
    rw [h1, getOrCreateTag, h]

/-- Claim C10: every invocation of generatePostId on a random draw in
[0, 1) returns an integer between 100000000 and 999999999, a nine-digit
post id. -/
theorem claim_C10_postId_range (r : ℚ) (h0 : 0 ≤ r) (h1 : r < 1) :
    100000000 ≤ generatePostId r ∧ generatePostId r ≤ 999999999 := by
  unfold generatePostId
  constructor
  · apply Int.le_floor.mpr
    push_cast
    nlinarith
  · have h : ((100000000 : ℚ) + r * 900000000) < ((1000000000 : ℤ) : ℚ) := by
      push_cast
      nlinarith
    have := Int.floor_lt.mpr h
    omega

/-- Claim C10 witness: the bounds hold at the concrete draw r = 0. -/
theorem claim_C10_postId_range_witness :
    (0 : ℚ) ≤ 0 ∧ (0 : ℚ) < 1 ∧
    (100000000 ≤ generatePostId 0 ∧ generatePostId 0 ≤ 999999999) :=
  ⟨le_refl 0, by norm_num, claim_C10_postId_range 0 (le_refl 0) (by norm_num)⟩

/-! Worker model: the cron worker of src/index.js:438-555 pulls a batch of
at most three queue documents ordered by enqueue time, and for each one
calls the generative service, persists a Post and deletes the queue
document, with per-item try/catch error handling. -/

/-- The worker's external collaborators: the generative call (`none` models
a call error or unparseable payload, as `formatTweetWithGemini` returns
null then) and whether persisting the Post for an item throws (a database
write failure after a successful generative call). -/
structure WorkerEnv where
  gemini : QueueItem → Option GeminiData
  saveFails : QueueItem → Bool

/-- The durable state the worker reads and writes. -/
structure WorkerState where
  queue : List QueueItem
  posts : List Post
deriving DecidableEq

/-- The Post the worker constructs on a successful generative call
(src/index.js:520-541). -/
def mkPost (item : QueueItem) (g : GeminiData) : Post :=
  let tweetVideo := extractVideo item.media
  { tweetId := item.id, title := g.title, summary := g.summary, text := g.content,
    imageUrl := mainImageUrl item.media, videoUrl := tweetVideo,
    type := finalPostType item.postType tweetVideo }

theorem mkPost_tweetId (item : QueueItem) (g : GeminiData) :
    (mkPost item g).tweetId = item.id := rfl

/-- Deletion of one queue document by its unique id, the
`Queue.deleteOne` of src/index.js:545 and 548. -/
def deleteOne (i : String) : List QueueItem → List QueueItem
  | [] => []
  | q :: qs => if q.id = i then qs else q :: deleteOne i qs

/-- One iteration of the worker loop body (src/index.js:444-552): on a
successful generative call the Post is saved and the queue document
deleted, unless the save throws, in which case the catch leaves the state
unchanged; on a failed generative call the document is deleted and no
Post is created. -/
def processItem (env : WorkerEnv) (st : WorkerState) (item : QueueItem) : WorkerState :=
  match env.gemini item with
  | some g =>
    if env.saveFails item then st
    else { queue := deleteOne item.id st.queue, posts := st.posts ++ [mkPost item g] }
  | none => { st with queue := deleteOne item.id st.queue }

/-- Observable worker events: an item finishing its loop iteration, and an
inter-item sleep. -/
inductive Event where
  | processed (id : String)
  | slept (ms : Nat)
deriving DecidableEq

/-- The events of one loop iteration: the item is processed and then, when
the batch holds more than one item, the fixed 6000 ms sleep of
src/index.js:553 runs — the condition is on the batch length, for every
item of the batch. -/
def itemEvents (batchLen : Nat) (item : QueueItem) : List Event :=
  Event.processed item.id :: (if 1 < batchLen then [Event.slept 6000] else [])

/-- The worker loop over a pulled batch, threading the state and collecting
the event trace. -/
def runItems (env : WorkerEnv) (batchLen : Nat) : List QueueItem → WorkerState → WorkerState × List Event
  | [], st => (st, [])
  | item :: rest, st =>
    ((runItems env batchLen rest (processItem env st item)).1,
      itemEvents batchLen item ++ (runItems env batchLen rest (processItem env st item)).2)

theorem runItems_cons_fst (env : WorkerEnv) (n : Nat) (item : QueueItem)
    (rest : List QueueItem) (st : WorkerState) :
    (runItems env n (item :: rest) st).1 = (runItems env n rest (processItem env st item)).1 := rfl

theorem runItems_cons_snd (env : WorkerEnv) (n : Nat) (item : QueueItem)
    (rest : List QueueItem) (st : WorkerState) :
    (runItems env n (item :: rest) st).2 =
      itemEvents n item ++ (runItems env n rest (processItem env st item)).2 := rfl

/-- Stable insertion step of the ascending sort by enqueue time. -/
def insertByTime (x : QueueItem) : List QueueItem → List QueueItem
  | [] => [x]
  | y :: ys => if x.queuedAt ≤ y.queuedAt then x :: y :: ys else y :: insertByTime x ys

/-- Ascending sort by `queuedAt`, the `sort({ queuedAt: 1 })` of
src/index.js:439. -/
def sortByTime : List QueueItem → List QueueItem
  | [] => []
  | x :: xs => insertByTime x (sortByTime xs)

/-- Batch pull of src/index.js:439: the queue sorted by enqueue time
ascending, limited to `maxItems` documents (the code uses `limit(3)`). -/
def pullBatch (queue : List QueueItem) (maxItems : Nat) : List QueueItem :=
  (sortByTime queue).take maxItems

/-- One full worker tick (src/index.js:438-555). -/
def workerTick (env : WorkerEnv) (st : WorkerState) (maxItems : Nat) : WorkerState × List Event :=
  runItems env (pullBatch st.queue maxItems).length (pullBatch st.queue maxItems) st

/-! Lemmas about the sort, the batch and the loop. -/

theorem mem_insertByTime {x y : QueueItem} {l : List QueueItem} :
    x ∈ insertByTime y l ↔ x = y ∨ x ∈ l := by
  induction l with
  | nil => simp [insertByTime]
  | cons z zs ih =>
    by_cases h : y.queuedAt ≤ z.queuedAt
    · simp [insertByTime, h]
    · simp only [insertByTime, if_neg h, List.mem_cons, ih]
      tauto

theorem mem_sortByTime {x : QueueItem} {l : List QueueItem} :
    x ∈ sortByTime l ↔ x ∈ l := by
  induction l with
  | nil => simp [sortByTime]
  | cons y ys ih => simp [sortByTime, mem_insertByTime, ih]

theorem perm_insertByTime (y : QueueItem) (l : List QueueItem) :
    List.Perm (insertByTime y l) (y :: l) := by
  induction l with
  | nil => exact List.Perm.refl _
  | cons z zs ih =>
    by_cases h : y.queuedAt ≤ z.queuedAt
    · rw [insertByTime, if_pos h]
    · rw [insertByTime, if_neg h]
      exact (ih.cons z).trans (List.Perm.swap y z zs)

theorem perm_sortByTime (l : List QueueItem) : List.Perm (sortByTime l) l := by
  induction l with
  | nil => exact List.Perm.refl _
  | cons y ys ih => exact (perm_insertByTime y (sortByTime ys)).trans (ih.cons y)

theorem mem_of_mem_pullBatch {it : QueueItem} {l : List QueueItem} {m : Nat}
    (h : it ∈ pullBatch l m) : it ∈ l :=
  mem_sortByTime.mp (List.mem_of_mem_take h)

theorem nodup_ids_pullBatch {l : List QueueItem}
    (h : (l.map (fun q => q.id)).Nodup) (m : Nat) :
    ((pullBatch l m).map (fun q => q.id)).Nodup := by
  have hp : List.Perm ((sortByTime l).map (fun q => q.id)) (l.map (fun q => q.id)) :=
    (perm_sortByTime l).map _
  have hs : ((sortByTime l).map (fun q => q.id)).Nodup := hp.nodup_iff.mpr h
  exact hs.sublist (((sortByTime l).take_sublist m).map _)

theorem eq_of_mem_ids_nodup {l : List QueueItem} (h : (l.map (fun q => q.id)).Nodup)
    {a b : QueueItem} (ha : a ∈ l) (hb : b ∈ l) (hid : a.id = b.id) : a = b :=
  List.inj_on_of_nodup_map h ha hb hid

theorem deleteOne_sublist (i : String) : ∀ l : List QueueItem, List.Sublist (deleteOne i l) l
  | [] => List.Sublist.refl []
  | q :: qs => by
    rw [deleteOne]
    by_cases h : q.id = i
    · rw [if_pos h]
      exact List.sublist_cons_self q qs
    · rw [if_neg h]
      exact (deleteOne_sublist i qs).cons₂ q

theorem mem_deleteOne_of_ne {q : QueueItem} {i : String} {l : List QueueItem}
    (hq : q ∈ l) (hne : q.id ≠ i) : q ∈ deleteOne i l := by
  induction l with
  | nil => simp at hq
  | cons x xs ih =>
    rw [deleteOne]
    by_cases h : x.id = i
    · rw [if_pos h]
      rcases List.mem_cons.mp hq with rfl | hq2
      · exact absurd h hne
      · exact hq2
    · rw [if_neg h]
      rcases List.mem_cons.mp hq with rfl | hq2
      · exact List.mem_cons_self _ _
      · exact List.mem_cons_of_mem _ (ih hq2)

theorem notMem_deleteOne {i : String} {l : List QueueItem}
    (h : (l.map (fun q => q.id)).Nodup) {q : QueueItem} (hqi : q.id = i) :
    q ∉ deleteOne i l := by
  induction l with
  | nil => simp [deleteOne]
  | cons x xs ih =>
    rw [List.map_cons, List.nodup_cons] at h
    rw [deleteOne]
    by_cases hx : x.id = i
    · rw [if_pos hx]
      intro hmem
      exact h.1 (by rw [hx, ← hqi]; exact List.mem_map_of_mem _ hmem)
    · rw [if_neg hx]
      intro hmem
      rcases List.mem_cons.mp hmem with rfl | hmem2
      · exact hx hqi
      · exact ih h.2 hmem2

theorem nodup_ids_deleteOne {i : String} {l : List QueueItem}
    (h : (l.map (fun q => q.id)).Nodup) :
    ((deleteOne i l).map (fun q => q.id)).Nodup :=
  h.sublist ((deleteOne_sublist i l).map _)

theorem queue_processItem_cases (env : WorkerEnv) (st : WorkerState) (item : QueueItem) :
    (processItem env st item).queue = deleteOne item.id st.queue ∨
    (processItem env st item).queue = st.queue := by
  rcases hg : env.gemini item with _ | g
  · left
    simp [processItem, hg]
  · cases hs : env.saveFails item
    · left
      simp [processItem, hg, hs]
    · right
      simp [processItem, hg, hs]

theorem nodup_ids_processItem {env : WorkerEnv} {st : WorkerState} {item : QueueItem}
    (h : (st.queue.map (fun q => q.id)).Nodup) :
    ((processItem env st item).queue.map (fun q => q.id)).Nodup := by
  rcases queue_processItem_cases env st item with hc | hc <;> rw [hc]
  · exact nodup_ids_deleteOne h
  · exact h

theorem mem_queue_processItem {env : WorkerEnv} {st : WorkerState} {item q : QueueItem}
    (hq : q ∈ st.queue)
    (h : q.id ≠ item.id ∨ (∃ g, env.gemini item = some g ∧ env.saveFails item = true)) :
    q ∈ (processItem env st item).queue := by
  rcases hg : env.gemini item with _ | g
  · rcases h with h | ⟨g, hg2, _⟩
    · simpa [processItem, hg] using mem_deleteOne_of_ne hq h
    · rw [hg] at hg2
      cases hg2
  · cases hs : env.saveFails item
    · rcases h with h | ⟨g2, _, hs2⟩
      · simpa [processItem, hg, hs] using mem_deleteOne_of_ne hq h
      · rw [hs] at hs2
        cases hs2
    · simpa [processItem, hg, hs] using hq

theorem queue_runItems_subset (env : WorkerEnv) (n : Nat) (items : List QueueItem) :
    ∀ st : WorkerState, (runItems env n items st).1.queue ⊆ st.queue := by
  induction items with
  | nil => intro st q h; exact h
  | cons item rest ih =>
    intro st q hq
    rw [runItems_cons_fst] at hq
    have h2 := ih (processItem env st item) hq
    rcases queue_processItem_cases env st item with hc | hc
    · rw [hc] at h2
      exact (deleteOne_sublist _ _).subset h2
    · rw [hc] at h2
      exact h2

theorem mem_queue_runItems (env : WorkerEnv) (n : Nat) (items : List QueueItem) :
    ∀ (st : WorkerState) (q : QueueItem), q ∈ st.queue →
      (∀ it ∈ items, q.id ≠ it.id ∨ (∃ g, env.gemini it = some g ∧ env.saveFails it = true)) →
      q ∈ (runItems env n items st).1.queue := by
  induction items with
  | nil => intro st q hq _; exact hq
  | cons item rest ih =>
    intro st q hq hall
    rw [runItems_cons_fst]
    exact ih _ q (mem_queue_processItem hq (hall item (List.mem_cons_self _ _)))
      (fun it hit => hall it (List.mem_cons_of_mem _ hit))

/-- Whether the loop body removes an item's queue document: it does on a
failed generative call and on a fully successful iteration; it does not
when the save throws. -/
def removedB (env : WorkerEnv) (it : QueueItem) : Bool :=
  match env.gemini it with
  | none => true
  | some _ => !env.saveFails it

theorem notMem_queue_runItems (env : WorkerEnv) (n : Nat) (items : List QueueItem) :
    ∀ (st : WorkerState) (item : QueueItem), (st.queue.map (fun q => q.id)).Nodup →
      item ∈ items → removedB env item = true →
      item ∉ (runItems env n items st).1.queue := by
  induction items with
  | nil => intro st item _ h _; simp at h
  | cons it rest ih =>
    intro st item hnd hmem hrem
    rw [runItems_cons_fst]
    rcases List.mem_cons.mp hmem with rfl | hmem2
    · have hq : (processItem env st item).queue = deleteOne item.id st.queue := by
        rcases hg : env.gemini item with _ | g
        · simp [processItem, hg]
        · simp only [removedB, hg, Bool.not_eq_true'] at hrem
          simp [processItem, hg, hrem]
      intro hcontra
      have h2 := queue_runItems_subset env n rest (processItem env st item) hcontra
      rw [hq] at h2
      exact notMem_deleteOne hnd rfl h2
    · exact ih (processItem env st it) item (nodup_ids_processItem hnd) hmem2 hrem

/-- The posts a run over `items` appends: one per item whose generative
call succeeded and whose save did not throw. -/
def postsOf (env : WorkerEnv) (items : List QueueItem) : List Post :=
  items.filterMap (fun it =>
    match env.gemini it with
    | some g => if env.saveFails it then none else some (mkPost it g)
    | none => none)

theorem posts_runItems (env : WorkerEnv) (n : Nat) (items : List QueueItem) :
    ∀ st : WorkerState, (runItems env n items st).1.posts = st.posts ++ postsOf env items := by
  induction items with
  | nil => intro st; simp [runItems, postsOf]
  | cons item rest ih =>
    intro st
    rw [runItems_cons_fst, ih]
    rcases hg : env.gemini item with _ | g
    · simp [processItem, hg, postsOf, List.filterMap_cons]
    · cases hs : env.saveFails item
      · simp [processItem, hg, hs, postsOf, List.filterMap_cons]
      · simp [processItem, hg, hs, postsOf, List.filterMap_cons]

theorem trace_runItems (env : WorkerEnv) (n : Nat) (items : List QueueItem) :
    ∀ st : WorkerState, (runItems env n items st).2 = items.flatMap (fun it => itemEvents n it) := by
  induction items with
  | nil => intro st; rfl
  | cons item rest ih =>
    intro st
    rw [runItems_cons_snd, ih, List.flatMap_cons]

/-- Claim C2: a worker tick pulls at most `maxItems` queue documents ordered
by enqueue time ascending; for a queue holding items enqueued at times
t1 < t2 < t3 and `maxItems = 2`, the batch is exactly the t1 and t2 items
in order, the t3 item stays in the queue after the tick, and the t3 item
is never processed in that tick's trace. -/
theorem claim_C2_fifo_batch (env : WorkerEnv) (posts : List Post) (i1 i2 i3 : QueueItem)
    (h12 : i1.queuedAt < i2.queuedAt) (h23 : i2.queuedAt < i3.queuedAt)
    (h31 : i3.id ≠ i1.id) (h32 : i3.id ≠ i2.id) :
    (∀ (queue : List QueueItem) (m : Nat), (pullBatch queue m).length ≤ m) ∧
    pullBatch [i1, i2, i3] 2 = [i1, i2] ∧
    i3 ∈ (workerTick env ⟨[i1, i2, i3], posts⟩ 2).1.queue ∧
    Event.processed i3.id ∉ (workerTick env ⟨[i1, i2, i3], posts⟩ 2).2 := by
  have hb : pullBatch [i1, i2, i3] 2 = [i1, i2] := by
    simp [pullBatch, sortByTime, insertByTime, le_of_lt h12, le_of_lt h23]
  refine ⟨?_, hb, ?_, ?_⟩
  · intro queue m
    simp only [pullBatch, List.length_take]
    omega
  · have h := mem_queue_runItems env 2 [i1, i2] ⟨[i1, i2, i3], posts⟩ i3 (by simp)
      (by intro it hit
          rcases List.mem_cons.mp hit with rfl | hit2
          · exact Or.inl h31
          · rcases List.mem_cons.mp hit2 with rfl | hit3
            · exact Or.inl h32
            · simp at hit3)
    simpa [workerTick, hb] using h
  · simp only [workerTick]
    rw [trace_runItems]
    simp [hb, itemEvents, h31, h32]

/-- Claim C3: for a batch item whose generative call fails, the worker
deletes its queue document, creates no Post for it, and the loop still
reaches every batch item (no exception escapes the batch loop: each
pulled item has a processed event in the tick's trace). -/
theorem claim_C3_generative_failure_drops_item (env : WorkerEnv) (st : WorkerState)
    (m : Nat) (item : QueueItem)
    (hnd : (st.queue.map (fun q => q.id)).Nodup)
    (hmem : item ∈ pullBatch st.queue m)
    (hfail : env.gemini item = none) :
    item ∉ (workerTick env st m).1.queue ∧
    (∀ p ∈ (workerTick env st m).1.posts, p ∈ st.posts ∨ p.tweetId ≠ item.id) ∧
    (∀ it ∈ pullBatch st.queue m, Event.processed it.id ∈ (workerTick env st m).2) := by
  refine ⟨?_, ?_, ?_⟩
  · rw [workerTick]
    exact notMem_queue_runItems env _ _ st item hnd hmem (by simp [removedB, hfail])
  · intro p hp
    rw [workerTick, posts_runItems] at hp
    rcases List.mem_append.mp hp with hp | hp
    · exact Or.inl hp
    · right
      rcases List.mem_filterMap.mp hp with ⟨it, hit, hmk⟩
      rcases hg : env.gemini it with _ | g
      · rw [hg] at hmk
        cases hmk
      · rw [hg] at hmk
        cases hs : env.saveFails it
        · rw [hs] at hmk
          simp only [Bool.false_eq_true, if_false, Option.some.injEq] at hmk
          intro heq
          have hii : it = item := eq_of_mem_ids_nodup hnd (mem_of_mem_pullBatch hit)
            (mem_of_mem_pullBatch hmem)
            (by rw [← heq, ← hmk, mkPost_tweetId])
          rw [hii, hfail] at hg
          cases hg
        · rw [hs] at hmk
          simp at hmk
  · intro it hit
    rw [workerTick, trace_runItems]
    exact List.mem_flatMap.mpr ⟨it, hit, by simp [itemEvents]⟩

/-- Claim C4: for a batch item whose generative call succeeds but whose
database write throws, the error is caught, the item's queue document
remains, the loop still reaches every batch item, and the only removals a
tick ever makes are the generative-failure deletion and the successful
post-publication deletion. -/
theorem claim_C4_miditem_error_keeps_item (env : WorkerEnv) (st : WorkerState)
    (m : Nat) (item : QueueItem) (g : GeminiData)
    (hnd : (st.queue.map (fun q => q.id)).Nodup)
    (hmem : item ∈ pullBatch st.queue m)
    (hg : env.gemini item = some g)
    (hs : env.saveFails item = true) :
    item ∈ (workerTick env st m).1.queue ∧
    (∀ it ∈ pullBatch st.queue m, Event.processed it.id ∈ (workerTick env st m).2) ∧
    (∀ q ∈ st.queue, q ∉ (workerTick env st m).1.queue →
      q ∈ pullBatch st.queue m ∧
      (env.gemini q = none ∨ ∃ g2, env.gemini q = some g2 ∧ env.saveFails q = false)) := by
  refine ⟨?_, ?_, ?_⟩
  · rw [workerTick]
    apply mem_queue_runItems env _ _ st item (mem_of_mem_pullBatch hmem)
    intro it hit
    by_cases hid : item.id = it.id
    · have hii : it = item := eq_of_mem_ids_nodup hnd (mem_of_mem_pullBatch hit)
        (mem_of_mem_pullBatch hmem) hid.symm
      exact Or.inr ⟨g, hii ▸ hg, hii ▸ hs⟩
    · exact Or.inl hid
  · intro it hit
    rw [workerTick, trace_runItems]
    exact List.mem_flatMap.mpr ⟨it, hit, by simp [itemEvents]⟩
  · intro q hq hnot
    have hex : ∃ it ∈ pullBatch st.queue m,
        q.id = it.id ∧ ¬(∃ g2, env.gemini it = some g2 ∧ env.saveFails it = true) := by
      by_contra hcon
      apply hnot
      rw [workerTick]
      apply mem_queue_runItems env _ _ st q hq
      intro it hit
      by_cases hid : q.id = it.id
      · by_cases hst : ∃ g2, env.gemini it = some g2 ∧ env.saveFails it = true
        · exact Or.inr hst
        · exact (hcon ⟨it, hit, hid, hst⟩).elim
      · exact Or.inl hid
    rcases hex with ⟨it, hit, hne, hstall⟩
    have hii : it = q := eq_of_mem_ids_nodup hnd (mem_of_mem_pullBatch hit) hq hne.symm
    subst hii
    refine ⟨hit, ?_⟩
    rcases hgq : env.gemini it with _ | g2
    · exact Or.inl rfl
    · cases hsq : env.saveFails it
      · exact Or.inr ⟨g2, rfl, rfl⟩
      · exact (hstall ⟨g2, hgq, hsq⟩).elim

/-- Concrete items and environments for the witnesses. -/
def qItemA : QueueItem :=
  { id := "a", text := "ta", url := "ua", postType := "normal_post", media := [], queuedAt := 1 }

def qItemB : QueueItem :=
  { id := "b", text := "tb", url := "ub", postType := "normal_post", media := [], queuedAt := 2 }

def qItemC : QueueItem :=
  { id := "c", text := "tc", url := "uc", postType := "normal_post", media := [], queuedAt := 3 }

/-- Environment whose generative call always fails. -/
def envDrop : WorkerEnv := { gemini := fun _ => none, saveFails := fun _ => false }

def gdSample : GeminiData := { title := "t", summary := "s", content := "c", tags_en := [] }

/-- Environment whose generative call succeeds but whose database write
always throws. -/
def envStall : WorkerEnv := { gemini := fun _ => some gdSample, saveFails := fun _ => true }

/-- Claim C2 witness: the FIFO batch facts at three concrete items enqueued
at times 1 < 2 < 3. -/
theorem claim_C2_fifo_batch_witness :
    qItemA.queuedAt < qItemB.queuedAt ∧ qItemB.queuedAt < qItemC.queuedAt ∧
    qItemC.id ≠ qItemA.id ∧ qItemC.id ≠ qItemB.id ∧
    ((∀ (queue : List QueueItem) (m : Nat), (pullBatch queue m).length ≤ m) ∧
     pullBatch [qItemA, qItemB, qItemC] 2 = [qItemA, qItemB] ∧
     qItemC ∈ (workerTick envDrop ⟨[qItemA, qItemB, qItemC], []⟩ 2).1.queue ∧
     Event.processed qItemC.id ∉ (workerTick envDrop ⟨[qItemA, qItemB, qItemC], []⟩ 2).2) :=
  ⟨by decide, by decide, by decide, by decide,
   claim_C2_fifo_batch envDrop [] qItemA qItemB qItemC (by decide) (by decide)
     (by decide) (by decide)⟩

/-- Claim C3 witness: the generative-failure policy at a concrete one-item
queue under an environment whose generative call fails. -/
theorem claim_C3_generative_failure_witness :
    (([qItemA] : List QueueItem).map (fun q => q.id)).Nodup ∧
    qItemA ∈ pullBatch [qItemA] 3 ∧ envDrop.gemini qItemA = none ∧
    (qItemA ∉ (workerTick envDrop ⟨[qItemA], []⟩ 3).1.queue ∧
     (∀ p ∈ (workerTick envDrop ⟨[qItemA], []⟩ 3).1.posts,
        p ∈ ([] : List Post) ∨ p.tweetId ≠ qItemA.id) ∧
     (∀ it ∈ pullBatch [qItemA] 3,
        Event.processed it.id ∈ (workerTick envDrop ⟨[qItemA], []⟩ 3).2)) :=
  ⟨by decide, by decide, rfl,
   claim_C3_generative_failure_drops_item envDrop ⟨[qItemA], []⟩ 3 qItemA
     (by decide) (by decide) rfl⟩

/-- Claim C4 witness: the mid-item failure policy at a concrete one-item
queue under an environment whose generative call succeeds but whose
database write throws. -/
theorem claim_C4_miditem_error_witness :
    (([qItemA] : List QueueItem).map (fun q => q.id)).Nodup ∧
    qItemA ∈ pullBatch [qItemA] 3 ∧
    envStall.gemini qItemA = some gdSample ∧ envStall.saveFails qItemA = true ∧
    (qItemA ∈ (workerTick envStall ⟨[qItemA], []⟩ 3).1.queue ∧
     (∀ it ∈ pullBatch [qItemA] 3,
        Event.processed it.id ∈ (workerTick envStall ⟨[qItemA], []⟩ 3).2) ∧
     (∀ q ∈ ([qItemA] : List QueueItem),
        q ∉ (workerTick envStall ⟨[qItemA], []⟩ 3).1.queue →
        q ∈ pullBatch [qItemA] 3 ∧
        (envStall.gemini q = none ∨
          ∃ g2, envStall.gemini q = some g2 ∧ envStall.saveFails q = false))) :=
  ⟨by decide, by decide, rfl, rfl,
   claim_C4_miditem_error_keeps_item envStall ⟨[qItemA], []⟩ 3 qItemA gdSample
     (by decide) (by decide) rfl rfl⟩

/-- Claim C9 counterexample: on a two-item batch the 6000 ms sleep also runs
after the last item — the tick's trace ends with a sleep event instead of
skipping the delay after the final item, because src/index.js:553 guards
the sleep on the batch length, not on the item's position. -/
theorem claim_C9_sleep_after_last_cex :
    (workerTick { gemini := fun _ => none, saveFails := fun _ => false }
        ⟨[{ id := "a", text := "", url := "", postType := "normal_post", media := [], queuedAt := 1 },
          { id := "b", text := "", url := "", postType := "normal_post", media := [], queuedAt := 2 }], []⟩ 3).2 =
      [Event.processed "a", Event.slept 6000, Event.processed "b", Event.slept 6000] ∧
    (workerTick { gemini := fun _ => none, saveFails := fun _ => false }
        ⟨[{ id := "a", text := "", url := "", postType := "normal_post", media := [], queuedAt := 1 },
          { id := "b", text := "", url := "", postType := "normal_post", media := [], queuedAt := 2 }], []⟩ 3).2.getLast? =
      some (Event.slept 6000) := by
  refine ⟨by decide, by decide⟩

theorem flatMap_singleton_map (l : List QueueItem) (f : QueueItem → Event) :
    (l.flatMap fun it => [f it]) = l.map f := by
  induction l with
  | nil => rfl
  | cons x xs ih =>
    rw [List.flatMap_cons, ih]
    rfl

/-- Claim C9 (amended): whenever the pulled batch holds more than one item,
the fixed 6000 ms inter-item delay runs after every item of the batch,
the last one included; a batch of at most one item sleeps not at all. -/
theorem claim_C9_interitem_delay_amended (env : WorkerEnv) (st : WorkerState) (m : Nat) :
    (workerTick env st m).2 =
      if 1 < (pullBatch st.queue m).length then
        (pullBatch st.queue m).flatMap (fun it => [Event.processed it.id, Event.slept 6000])
      else (pullBatch st.queue m).map (fun it => Event.processed it.id) := by
  rw [workerTick, trace_runItems]
  by_cases h : 1 < (pullBatch st.queue m).length
  · rw [if_pos h]
    simp [itemEvents, h]
  · rw [if_neg h,
      ← flatMap_singleton_map (pullBatch st.queue m) (fun it => Event.processed it.id)]
    simp [itemEvents, h]

/-! Ingestion: the tweet-fetch routes and `fetchAndQueueTweetsForHandle`
(src/index.js:171-220 and 270-322) filter fetched tweets against the ids
already posted or queued, then batch-insert the survivors. -/

/-- A fetched tweet candidate as the ingestion routes consume it. -/
structure Tweet where
  id : String
  text : String
  url : String
  media : List MediaEntity
deriving DecidableEq

/-- The dedup predicate of src/index.js:296-299: the candidate's id is in
the set of posted `tweetId`s or queued `id`s. -/
def isKnownId (posts : List Post) (queue : List QueueItem) (tid : String) : Bool :=
  posts.any (fun p => p.tweetId == tid) || queue.any (fun q => q.id == tid)

/-- The `newTweets` filter of src/index.js:299: candidates whose id is not
already posted or queued. -/
def filterNewTweets (posts : List Post) (queue : List QueueItem) (tweets : List Tweet) :
    List Tweet :=
  tweets.filter (fun t => !(isKnownId posts queue t.id))

/-- The queue document built for a surviving candidate
(src/index.js:303-312). -/
def toQueueDoc (postType : String) (now : Nat) (t : Tweet) : QueueItem :=
  { id := t.id, text := t.text, url := t.url, postType := postType,
    media := t.media, queuedAt := now }

/-- The documents one ingestion run inserts (`Queue.insertMany` of
src/index.js:314): the filtered survivors mapped to queue documents. -/
def ingestTweets (posts : List Post) (queue : List QueueItem) (tweets : List Tweet)
    (postType : String) (now : Nat) : List QueueItem :=
  (filterNewTweets posts queue tweets).map (toQueueDoc postType now)

/-- Claim C5: ingestion is idempotent over the external id — a candidate is
inserted exactly when its id matches no posted `tweetId` and no queued
`id`, and re-ingesting the same candidate set right after an ingestion
run inserts nothing. -/
theorem claim_C5_idempotent_ingestion (posts : List Post) (queue : List QueueItem)
    (tweets : List Tweet) (pt pt2 : String) (now now2 : Nat) :
    (∀ t : Tweet, t ∈ filterNewTweets posts queue tweets ↔
      t ∈ tweets ∧ (∀ p ∈ posts, p.tweetId ≠ t.id) ∧ (∀ q ∈ queue, q.id ≠ t.id)) ∧
    ingestTweets posts (queue ++ ingestTweets posts queue tweets pt now) tweets pt2 now2 = [] := by
  constructor
  · intro t
    simp only [filterNewTweets, List.mem_filter, isKnownId, Bool.not_eq_true',
      Bool.or_eq_false_iff, List.any_eq_false, beq_eq_false_iff_ne, ne_eq, and_assoc,
      beq_iff_eq]
  · rw [ingestTweets, List.map_eq_nil_iff, filterNewTweets, List.filter_eq_nil_iff]
    intro t ht
    simp only [Bool.not_eq_true', Bool.not_eq_false]
    by_cases hk : isKnownId posts queue t.id = true
    · simp only [isKnownId, Bool.or_eq_true, List.any_append] at hk ⊢
      rcases hk with hk | hk
      · exact Or.inl hk
      · exact Or.inr (Or.inl hk)
    · have hkf : isKnownId posts queue t.id = false := by
        cases h2 : isKnownId posts queue t.id
        · rfl
        · exact (hk h2).elim
      have hmem : toQueueDoc pt now t ∈ ingestTweets posts queue tweets pt now := by
        rw [ingestTweets]
        exact List.mem_map_of_mem _ (List.mem_filter.mpr ⟨ht, by simp [hkf]⟩)
      simp only [isKnownId, Bool.or_eq_true, List.any_append, List.any_eq_true]
      exact Or.inr (Or.inr ⟨toQueueDoc pt now t, hmem, by simp [toQueueDoc]⟩)

/-! RSS dedup: the per-candidate duplicate decision of `fetchAndQueueRSS`
in the syndication revision (src/unnamed/part_000:643-653): an exact URL
match against the known post/queue URLs short-circuits before the fuzzy
title path; otherwise, when the known-title list is nonempty, the best
string-similarity rating against it is compared with the 0.6 threshold.
The known URL and title sets are snapshots built from recent posts and
the queue (and grown as items are accepted); they enter here as
parameters. -/

/-- The best rating `findBestMatch(title, existingTitles).bestMatch.rating`:
the maximum similarity of the candidate title against each known title,
for a similarity function given as a parameter (the library's Dice
coefficient, modelled abstractly with rational values). -/
def bestMatchRating (sim : String → String → ℚ) (target : String) : List String → ℚ
  | [] => 0
  | t :: ts => max (sim target t) (bestMatchRating sim target ts)

/-- The duplicate decision for one RSS item: skip on an exact URL match
(`existingUrls.has(item.link)`, checked first), else, when known titles
exist, on a best title rating strictly above 0.6. -/
def rssIsDuplicate (sim : String → String → ℚ) (existingUrls existingTitles : List String)
    (link title : String) : Bool :=
  if existingUrls.contains link then true
  else if existingTitles.isEmpty then false
  else decide (bestMatchRating sim title existingTitles > 3 / 5)

theorem bestMatchRating_gt (sim : String → String → ℚ) (target : String) (c : ℚ)
    (hc : 0 ≤ c) : ∀ titles : List String,
    (c < bestMatchRating sim target titles ↔ ∃ t ∈ titles, c < sim target t) := by
  intro titles
  induction titles with
  | nil => simpa [bestMatchRating] using not_lt.mpr hc
  | cons t ts ih => simp [bestMatchRating, lt_max_iff, ih]

/-- Claim C6: for a syndicated candidate the exact canonical-URL match is
checked before the fuzzy title path (a URL match alone forces the skip,
whatever the similarity function says), and the candidate is skipped as a
duplicate exactly when its URL matches a known URL or the best
title-similarity score against the known titles strictly exceeds 0.6. -/
theorem claim_C6_rss_duplicate_rule (sim : String → String → ℚ)
    (urls titles : List String) (link title : String) :
    (urls.contains link = true → rssIsDuplicate sim urls titles link title = true) ∧
    (rssIsDuplicate sim urls titles link title = true ↔
      urls.contains link = true ∨ ∃ t ∈ titles, sim title t > 3 / 5) := by
  constructor
  · intro h
    rw [rssIsDuplicate, if_pos h]
  · by_cases hu : urls.contains link = true
    · rw [rssIsDuplicate, if_pos hu]
      exact ⟨fun _ => Or.inl hu, fun _ => rfl⟩
    · rw [rssIsDuplicate, if_neg hu]
      cases titles with
      | nil =>
        constructor
        · intro h
          simp at h
        · rintro (h | ⟨t, ht, _⟩)
          · exact (hu h).elim
          · simp at ht
      | cons t ts =>
        simp only [List.isEmpty_cons, Bool.false_eq_true, if_false, decide_eq_true_eq,
          hu, false_or]
        exact bestMatchRating_gt sim title (3 / 5) (by norm_num) (t :: ts)

end NewsPipeline
